import Mathlib

/-!
Verification of the core of `shoepewheel` (src/main.cpp): participant
registry, IRC line handling, engagement gate, spin physics and the round
state machine.  Floating-point state is modelled over `ℝ`; machine strings
over `List Char`.  Rendering-only fields (textures, fonts, background
offsets) are omitted: they are never read by the core logic.
-/

/-- One wheel entry (`struct WheelEntry`): a participant name and its color.
The color is modelled as the palette index chosen by `random_color`. -/
structure WheelEntry where
  name : String
  color : ℕ
deriving DecidableEq

/-- Model of `random_color()`: the global monotone counter selects a palette
entry round-robin (`i % 4`); we record the selected palette index. -/
def random_color (idx : ℕ) : ℕ := idx % 4

/-- Model of `add_player_if_new(name, entries, mutex)` (main.cpp:462-476):
no-op on empty name or an exact case-sensitive duplicate, otherwise appends
a new entry with the next round-robin color.  The global color counter is
threaded explicitly as `pal`. -/
def add_player_if_new (name : String) (entries : List WheelEntry) (pal : ℕ) :
    List WheelEntry × ℕ :=
  if name = "" then (entries, pal)
  else if entries.any (fun w => decide (w.name = name)) then (entries, pal)
  else (entries ++ [⟨name, random_color pal⟩], pal + 1)

/-- Names of the registry, in iteration order. -/
def regNames (entries : List WheelEntry) : List String :=
  entries.map WheelEntry.name

/-- A sequence of `add_player_if_new` calls folded over a starting registry. -/
def addSeq (names : List String) (st : List WheelEntry × ℕ) :
    List WheelEntry × ℕ :=
  names.foldl (fun acc n => add_player_if_new n acc.1 acc.2) st

lemma any_name_eq_mem (entries : List WheelEntry) (name : String) :
    entries.any (fun w => decide (w.name = name)) = true ↔
      name ∈ regNames entries := by
  rw [List.any_eq_true]
  simp only [decide_eq_true_eq, regNames, List.mem_map]

lemma add_player_if_new_of_absent (name : String) (entries : List WheelEntry)
    (pal : ℕ) (h0 : name ≠ "") (h1 : name ∉ regNames entries) :
    add_player_if_new name entries pal =
      (entries ++ [⟨name, random_color pal⟩], pal + 1) := by
  unfold add_player_if_new
  rw [if_neg h0, if_neg]
  intro h
  exact h1 ((any_name_eq_mem entries name).mp h)

lemma add_player_if_new_noop (name : String) (entries : List WheelEntry)
    (pal : ℕ) (h : name = "" ∨ name ∈ regNames entries) :
    add_player_if_new name entries pal = (entries, pal) := by
  unfold add_player_if_new
  rcases h with h | h
  · rw [if_pos h]
  · by_cases h0 : name = ""
    · rw [if_pos h0]
    · rw [if_neg h0, if_pos ((any_name_eq_mem entries name).mpr h)]

lemma add_player_if_new_nodup (name : String) (entries : List WheelEntry)
    (pal : ℕ) (h : (regNames entries).Nodup) :
    (regNames (add_player_if_new name entries pal).1).Nodup := by
  by_cases h0 : name = ""
  · rw [add_player_if_new_noop name entries pal (Or.inl h0)]; exact h
  by_cases h1 : name ∈ regNames entries
  · rw [add_player_if_new_noop name entries pal (Or.inr h1)]; exact h
  · rw [add_player_if_new_of_absent name entries pal h0 h1]
    simp only [regNames, List.map_append, List.map_cons, List.map_nil]
    rw [List.nodup_append]
    refine ⟨h, List.nodup_singleton _, ?_⟩
    intro a ha hb
    simp only [List.mem_singleton] at hb
    exact h1 (hb ▸ ha)

lemma addSeq_nodup (names : List String) (st : List WheelEntry × ℕ)
    (h : (regNames st.1).Nodup) : (regNames (addSeq names st).1).Nodup := by
  induction names generalizing st with
  | nil => simpa [addSeq] using h
  | cons n ns ih =>
      simp only [addSeq, List.foldl_cons]
      exact ih _ (add_player_if_new_nodup n st.1 st.2 h)

/-- Bool test that `pat` occurs at the front of `l` (models
`line.rfind(pat, 0) == 0` in C++). -/
def startsWithL : List Char → List Char → Bool
  | [], _ => true
  | _ :: _, [] => false
  | p :: ps, c :: cs => p == c && startsWithL ps cs

/-- Model of `std::string::find(char, pos)`: index of the first occurrence
of `c` at or after position `i`, if any. -/
def findCharFrom (l : List Char) (c : Char) (i : ℕ) : Option ℕ :=
  match (l.drop i).findIdx? (fun x => x == c) with
  | some j => some (i + j)
  | none => none

/-- Model of `std::string::find(pat, pos)`: smallest index `j ≥ i` at which
`pat` occurs as a substring of `l`, if any. -/
def findSubFrom (l pat : List Char) (i : ℕ) : Option ℕ :=
  (List.range (l.length + 1)).find? (fun j => decide (i ≤ j) && startsWithL pat (l.drop j))

/-- Model of `parse_username_from_irc_line` (main.cpp:499-517): skip an
optional IRCv3 tag block starting with `@`, then take the text between the
leading `:` and the following `!`; empty on any miss. -/
def parse_username_from_irc_line (l : List Char) : List Char :=
  let start : Option ℕ :=
    match l with
    | '@' :: _ =>
      match findCharFrom l ' ' 0 with
      | some sp => some (sp + 1)
      | none => none
    | _ => some 0
  match start with
  | none => []
  | some i =>
    match l.drop i with
    | ':' :: _ =>
      match findCharFrom l '!' (i + 1) with
      | some ex => (l.drop (i + 1)).take (ex - (i + 1))
      | none => []
    | _ => []

/-- Model of `handle_irc_line` (main.cpp:520-560).  The socket is replaced
by the list of outbound reply lines; the registry state (entries and color
counter) is threaded through.  `joinOpen` is the engagement gate read via
`app.join_open.load()`. -/
def handle_irc_line (l : List Char) (joinOpen : Bool)
    (entries : List WheelEntry) (pal : ℕ) :
    (List WheelEntry × ℕ) × List (List Char) :=
  if l = [] then ((entries, pal), [])
  else if startsWithL ("PING".data) l then
    let payload : List Char :=
      match findCharFrom l ':' 0 with
      | some colon => l.drop (colon + 1)
      | none => "tmi.twitch.tv".data
    ((entries, pal), [("PONG :".data) ++ payload])
  else
    match findSubFrom l ("PRIVMSG".data) 0 with
    | none => ((entries, pal), [])
    | some priv =>
      let username := parse_username_from_irc_line l
      match findSubFrom l (" :".data) priv with
      | none => ((entries, pal), [])
      | some cap =>
        let message := l.drop (cap + 2)
        let lower := message.map Char.toLower
        if startsWithL ("!join".data) lower then
          if joinOpen then
            (add_player_if_new (String.mk username) entries pal, [])
          else ((entries, pal), [])
        else ((entries, pal), [])

/-- The mutable core of `struct AppState` (main.cpp:69-107).  Rendering
handles (window, renderer, fonts, textures) and the background sprite
fields are omitted: the core logic never reads them.  `paletteIdx` is the
process-wide color counter of `random_color`; `join_open` is the atomic
engagement gate. -/
structure AppState where
  entries : List WheelEntry
  paletteIdx : ℕ
  current_angle : ℝ
  angular_velocity : ℝ
  spinning : Bool
  winner_index : ℤ
  winner_flash_remaining : ℝ
  winner_flash_elapsed : ℝ
  celebration_active : Bool
  celebration_time : ℝ
  celebration_name : String
  celebration_color : ℕ
  spin_friction : ℝ
  reset_hold_active : Bool
  reset_hold_elapsed : ℝ
  reset_hold_source : ℤ
  join_open : Bool

/-- The test `app.celebration_active || app.winner_index >= 0` used by every
input handler and by the reset-hold logic. -/
def winnerShowing (s : AppState) : Bool :=
  s.celebration_active || decide (0 ≤ s.winner_index)

/-- Model of `uniform_real_distribution(a, b)` applied to one unit sample
`u ∈ [0, 1)` of the process-wide generator. -/
def unif (a b u : ℝ) : ℝ := a + u * (b - a)

/-- Model of `handle_spin_or_reset` (main.cpp:676-730).  `uF` and `uS` are
the unit samples consumed by the friction and speed draws; `nick` is
`cfg.nick`.  The winner-display branch resets the round (and re-adds the
channel owner when configured); otherwise a spin starts when at least two
entries are present, the wheel is idle and the gate is closed. -/
def handle_spin_or_reset (nick : String) (uF uS : ℝ) (s : AppState) : AppState :=
  if winnerShowing s then
    let s' := {s with celebration_active := false, celebration_time := 0,
                      celebration_name := "",
                      winner_flash_remaining := 0, winner_flash_elapsed := 0,
                      winner_index := -1,
                      spinning := false, angular_velocity := 0,
                      entries := [], join_open := false}
    if nick = "" then s'
    else
      let r := add_player_if_new nick s'.entries s'.paletteIdx
      {s' with entries := r.1, paletteIdx := r.2}
  else if 2 ≤ s.entries.length ∧ s.spinning = false ∧ s.join_open = false then
    {s with spinning := true, winner_index := -1,
            winner_flash_remaining := 0, winner_flash_elapsed := 0,
            spin_friction := unif 1.8 5.6 uF,
            angular_velocity := unif 10 13 uS}
  else s

/-- Model of the emscripten-exported `wheel_spin` (main.cpp:1930-1949).
Note it does not test whether a winner is currently displayed. -/
def wheel_spin (uF uS : ℝ) (s : AppState) : AppState :=
  if s.entries.length < 2 ∨ s.spinning = true then s
  else if s.join_open = true then s
  else {s with spinning := true, winner_index := -1,
               winner_flash_remaining := 0, winner_flash_elapsed := 0,
               spin_friction := unif 1.8 5.6 uF,
               angular_velocity := unif 10 13 uS}

/-- Calls made to the external countdown-timer collaborator.
Modelled from the spec: the Timer interface (`Start(seconds)` via
`timer_reset`/`timer_start`, and `Stop()` via `timer_stop`) is declared
outside src/main.cpp, so the calls are recorded as events. -/
inductive TimerCall where
  | reset (secs : ℝ)
  | start
  | stop

/-- Bool discriminator for `TimerCall.start`. -/
def TimerCall.isStart : TimerCall → Bool
  | .start => true
  | _ => false

/-- Bool discriminator for `TimerCall.stop`. -/
def TimerCall.isStop : TimerCall → Bool
  | .stop => true
  | _ => false

/-- Model of `set_join_open` (main.cpp:733-747): returns the new state and
the list of timer calls issued, in order.  A repeated value returns early
with no store and no timer call. -/
def set_join_open (s : AppState) (openB : Bool) : AppState × List TimerCall :=
  if s.join_open = openB then (s, [])
  else ({s with join_open := openB},
        if openB then [TimerCall.reset 60, TimerCall.start] else [TimerCall.stop])

/-- Common body of the space-key and left-mouse handlers (native loop,
main.cpp:2212-2226 and 2238-2251): while a winner is displayed the input
begins (or continues) the reset hold with the given source tag, otherwise
it is `handle_spin_or_reset`. -/
def holdStartOrSpin (src : ℤ) (nick : String) (uF uS : ℝ) (s : AppState) : AppState :=
  if winnerShowing s then
    if s.reset_hold_active = false then
      {s with reset_hold_active := true, reset_hold_elapsed := 0,
              reset_hold_source := src}
    else s
  else handle_spin_or_reset nick uF uS s

/-- Native loop, `SDL_EVENT_KEY_DOWN` with space (main.cpp:2212-2226). -/
def onSpaceDownNative (nick : String) (uF uS : ℝ) (s : AppState) : AppState :=
  holdStartOrSpin 1 nick uF uS s

/-- Native loop, left mouse button down (main.cpp:2238-2251). -/
def onLeftDownNative (nick : String) (uF uS : ℝ) (s : AppState) : AppState :=
  holdStartOrSpin 2 nick uF uS s

/-- Native loop, right mouse button down (main.cpp:2253-2258): toggles the
engagement gate unconditionally. -/
def onRightDownNative (s : AppState) : AppState :=
  {s with join_open := !s.join_open}

/-- Emscripten loop, space key down (main.cpp:2113-2132): ignored while the
gate is open, otherwise as in the native loop. -/
def onSpaceDownEm (nick : String) (uF uS : ℝ) (s : AppState) : AppState :=
  if s.join_open then s else holdStartOrSpin 1 nick uF uS s

/-- Emscripten loop, left mouse button down (main.cpp:2142-2161). -/
def onLeftDownEm (nick : String) (uF uS : ℝ) (s : AppState) : AppState :=
  if s.join_open then s else holdStartOrSpin 2 nick uF uS s

/-- Emscripten loop, right mouse button down (main.cpp:2162-2175): the
toggle is ignored while a winner is displayed. -/
def onRightDownEm (s : AppState) : AppState :=
  if winnerShowing s then s else {s with join_open := !s.join_open}

/-- Truncation toward zero, the rounding used by C `fmod` and by
`static_cast<int>` on a floating value. -/
noncomputable def rtrunc (z : ℝ) : ℤ := if 0 ≤ z then ⌊z⌋ else ⌈z⌉

/-- Model of `std::fmod(x, y)`: `x - y * trunc(x / y)` (exact over ℝ). -/
noncomputable def fmodR (x y : ℝ) : ℝ := x - y * rtrunc (x / y)

/-- The constant `TWO_PI`. -/
noncomputable def twoPi : ℝ := 2 * Real.pi

/-- The fixed reference bearing `POINTER_ANGLE = -PI * 0.5` (12 o'clock). -/
noncomputable def POINTER_ANGLE : ℝ := -(Real.pi * 0.5)

/-- The wrap used at both wrap sites in main.cpp: `fmod` into `(-2π, 2π)`
followed by the negative-result correction. -/
noncomputable def wrapTwoPi (x : ℝ) : ℝ :=
  let a := fmodR x twoPi
  if a < 0 then a + twoPi else a

/-- Model of `pointer_slice_index(current_angle, n)` (main.cpp:1008-1025). -/
noncomputable def pointer_slice_index (current_angle : ℝ) (n : ℤ) : ℤ :=
  if n ≤ 0 then -1
  else
    let sliceAngle : ℝ := twoPi / (n : ℝ)
    let a : ℝ := wrapTwoPi (POINTER_ANGLE - current_angle)
    let index : ℤ := rtrunc (a / sliceAngle)
    if n ≤ index then n - 1 else index

/-- Spec-side normalization into `[0, 2π)` ("`normalize` maps into
`[0, 2π)`"). -/
noncomputable def normalizeSpec (x : ℝ) : ℝ := x - twoPi * ⌊x / twoPi⌋

/-- Spec-side winner resolution, taken from the spec's words: the winning
slice is `floor(normalize(referenceBearing − rotationAngle) / sliceWidth)`
with the index clamped into `[0, participantCount-1]`. -/
noncomputable def resolveWinnerIndexSpec (θ : ℝ) (n : ℤ) : ℤ :=
  max 0 (min (n - 1) ⌊normalizeSpec (POINTER_ANGLE - θ) / (twoPi / (n : ℝ))⌋)

/-- Model of the wheel-physics block of `frame` (main.cpp:1572-1605).
`entriesC` is the copy of the registry taken at the top of `frame`; the
block runs only while `spinning` with a non-empty copy.  It advances and
wraps the angle, applies friction, and on reaching zero velocity stops the
wheel and installs the winner (banner, flash timers). -/
noncomputable def physicsBlock (entriesC : List WheelEntry) (dt : ℝ) (s : AppState) : AppState :=
  let n : ℤ := (entriesC.length : ℤ)
  if s.spinning = true ∧ 0 < n then
    let ang := wrapTwoPi (s.current_angle + s.angular_velocity * dt)
    let friction := max 0 s.spin_friction
    let v := s.angular_velocity - friction * dt
    if v ≤ 0 then
      let idx := pointer_slice_index ang n
      if 0 ≤ idx ∧ idx < n then
        {s with current_angle := ang, angular_velocity := 0, spinning := false,
                winner_index := idx,
                celebration_active := true, celebration_time := 0,
                celebration_name := (entriesC.getD idx.toNat ⟨"", 0⟩).name,
                celebration_color := (entriesC.getD idx.toNat ⟨"", 0⟩).color,
                winner_flash_remaining := 2, winner_flash_elapsed := 0}
      else {s with current_angle := ang, angular_velocity := 0, spinning := false}
    else {s with current_angle := ang, angular_velocity := v}
  else s

/-- One physics advance of the live state: the block applied to the current
registry copy. -/
noncomputable def stepPhys (dt : ℝ) (s : AppState) : AppState :=
  physicsBlock s.entries dt s

/-- Reset-hold block of `frame` (main.cpp:1548-1570): an active hold is
cancelled when no winner is showing; otherwise the hold time accumulates
and on reaching 1.0 s the hold is cleared and `handle_spin_or_reset`
performs the round reset. -/
noncomputable def holdBlock (nick : String) (uF uS dt : ℝ) (s : AppState) : AppState :=
  if s.reset_hold_active = true then
    if winnerShowing s = false then
      {s with reset_hold_active := false, reset_hold_elapsed := 0,
              reset_hold_source := 0}
    else
      let e := s.reset_hold_elapsed + dt
      if 1 ≤ e then
        handle_spin_or_reset nick uF uS
          {s with reset_hold_active := false, reset_hold_elapsed := 0,
                  reset_hold_source := 0}
      else {s with reset_hold_elapsed := e}
  else s

/-- Winner-flash block of `frame` (main.cpp:1636-1649): while flash time
remains it is decremented (floored at 0) and the elapsed flash time grows. -/
noncomputable def flashBlock (dt : ℝ) (s : AppState) : AppState :=
  if 0 < s.winner_flash_remaining then
    let r := s.winner_flash_remaining - dt
    {s with winner_flash_remaining := if r < 0 then 0 else r,
            winner_flash_elapsed := s.winner_flash_elapsed + dt}
  else s

/-- Celebration-banner block of `frame` (main.cpp:1651-1654). -/
noncomputable def celebrationBlock (dt : ℝ) (s : AppState) : AppState :=
  if s.celebration_active = true then
    {s with celebration_time := s.celebration_time + dt}
  else s

/-- State-update semantics of one `frame(cfg, dt)` call (main.cpp:1528-1654;
the remainder of `frame` only renders).  The registry copy `entriesC` is
taken first, so the physics block sees the participant count from the top
of the frame even if the hold block resets the registry. -/
noncomputable def frame (nick : String) (uF uS dt : ℝ) (s : AppState) : AppState :=
  let entriesC := s.entries
  let s1 := holdBlock nick uF uS dt s
  let s2 := physicsBlock entriesC dt s1
  let s3 := flashBlock dt s2
  celebrationBlock dt s3

/-- A sequence of physics advances with the per-frame time steps `dts`. -/
noncomputable def runPhysSeq (dts : List ℝ) (s : AppState) : AppState :=
  dts.foldl (fun st d => stepPhys d st) s

/-- The initial `AppState` (the field initializers of main.cpp:69-107). -/
def baseState : AppState where
  entries := []
  paletteIdx := 0
  current_angle := 0
  angular_velocity := 0
  spinning := false
  winner_index := -1
  winner_flash_remaining := 0
  winner_flash_elapsed := 0
  celebration_active := false
  celebration_time := 0
  celebration_name := ""
  celebration_color := 0
  spin_friction := 3
  reset_hold_active := false
  reset_hold_elapsed := 0
  reset_hold_source := 0
  join_open := false

/-- A mid-spin state with two participants, used to instantiate theorems. -/
def spinSample : AppState :=
  {baseState with entries := [⟨"alice", 0⟩, ⟨"bob", 1⟩], spinning := true,
                  angular_velocity := 12, spin_friction := 2}

/-- A winner-display state with two participants, used to instantiate
theorems. -/
def winSample : AppState :=
  {baseState with entries := [⟨"alice", 0⟩, ⟨"bob", 1⟩], winner_index := 0,
                  celebration_active := true, celebration_name := "alice"}

lemma twoPi_pos : 0 < twoPi := by
  unfold twoPi; positivity

lemma fmod_corrected (x y : ℝ) (hy : 0 < y) :
    (if fmodR x y < 0 then fmodR x y + y else fmodR x y) = y * Int.fract (x / y) := by
  have hy0 : y ≠ 0 := ne_of_gt hy
  have hx : y * (x / y) = x := by field_simp
  have hfr : y * Int.fract (x / y) = x - y * (⌊x / y⌋ : ℝ) := by
    simp only [Int.fract]
    linear_combination hx
  by_cases h : 0 ≤ x / y
  · have htr : rtrunc (x / y) = ⌊x / y⌋ := by unfold rtrunc; rw [if_pos h]
    have hmod : fmodR x y = y * Int.fract (x / y) := by
      unfold fmodR; rw [htr, hfr]
    have hnn : 0 ≤ fmodR x y := by
      rw [hmod]; exact mul_nonneg hy.le (Int.fract_nonneg _)
    rw [if_neg (not_lt.mpr hnn), hmod]
  · have htr : rtrunc (x / y) = ⌈x / y⌉ := by unfold rtrunc; rw [if_neg h]
    by_cases hf : Int.fract (x / y) = 0
    · have hz : ((⌊x / y⌋ : ℤ) : ℝ) = x / y := by
        have h1 := Int.fract_add_floor (x / y)
        rw [hf, zero_add] at h1
        exact h1
      have hceil : ⌈x / y⌉ = ⌊x / y⌋ := by
        rw [← hz, Int.ceil_intCast, Int.floor_intCast]
      have hmod : fmodR x y = 0 := by
        have h2 : y * Int.fract (x / y) = 0 := by rw [hf, mul_zero]
        rw [hfr] at h2
        unfold fmodR
        rw [htr, hceil]
        exact h2
      rw [hmod, if_neg (lt_irrefl 0), hf, mul_zero]
    · have hlt : ((⌊x / y⌋ : ℤ) : ℝ) < x / y := by
        rcases lt_or_eq_of_le (Int.floor_le (x / y)) with h1 | h1
        · exact h1
        · refine absurd ?_ hf
          simp only [Int.fract]
          rw [h1]
          exact sub_self _
      have hceil : ⌈x / y⌉ = ⌊x / y⌋ + 1 := by
        refine le_antisymm (Int.ceil_le_floor_add_one _) ?_
        rw [Int.add_one_le_iff]
        exact Int.lt_ceil.mpr hlt
      have hmod : fmodR x y = y * Int.fract (x / y) - y := by
        unfold fmodR
        rw [htr, hceil]
        push_cast
        linear_combination -hfr
      have hneg : fmodR x y < 0 := by
        rw [hmod]
        have h1 : Int.fract (x / y) < 1 := Int.fract_lt_one _
        nlinarith
      rw [if_pos hneg, hmod]
      ring

lemma normalizeSpec_eq_fract (x : ℝ) :
    normalizeSpec x = twoPi * Int.fract (x / twoPi) := by
  unfold normalizeSpec
  simp only [Int.fract]
  have hy0 : twoPi ≠ 0 := ne_of_gt twoPi_pos
  have hx : twoPi * (x / twoPi) = x := by field_simp
  linear_combination -hx

lemma wrapTwoPi_eq_normalizeSpec (x : ℝ) :
    wrapTwoPi x = normalizeSpec x := by
  unfold wrapTwoPi
  rw [normalizeSpec_eq_fract]
  exact fmod_corrected x twoPi twoPi_pos

lemma wrapTwoPi_nonneg (x : ℝ) : 0 ≤ wrapTwoPi x := by
  rw [wrapTwoPi_eq_normalizeSpec, normalizeSpec_eq_fract]
  exact mul_nonneg twoPi_pos.le (Int.fract_nonneg _)

lemma wrapTwoPi_lt (x : ℝ) : wrapTwoPi x < twoPi := by
  rw [wrapTwoPi_eq_normalizeSpec, normalizeSpec_eq_fract]
  calc twoPi * Int.fract (x / twoPi) < twoPi * 1 :=
        (mul_lt_mul_left twoPi_pos).mpr (Int.fract_lt_one _)
    _ = twoPi := mul_one _

lemma pointer_slice_index_eq_floor (θ : ℝ) (n : ℤ) (hn : 1 ≤ n) :
    pointer_slice_index θ n =
      ⌊wrapTwoPi (POINTER_ANGLE - θ) / (twoPi / (n : ℝ))⌋ ∧
    0 ≤ pointer_slice_index θ n ∧ pointer_slice_index θ n < n := by
  have hn0 : ¬ n ≤ 0 := by omega
  have hnR : (0 : ℝ) < (n : ℝ) := by exact_mod_cast (show (0 : ℤ) < n by omega)
  have hslice : 0 < twoPi / (n : ℝ) := div_pos twoPi_pos hnR
  have hz0 : 0 ≤ wrapTwoPi (POINTER_ANGLE - θ) / (twoPi / (n : ℝ)) :=
    div_nonneg (wrapTwoPi_nonneg _) hslice.le
  have hzn : wrapTwoPi (POINTER_ANGLE - θ) / (twoPi / (n : ℝ)) < (n : ℝ) := by
    rw [div_lt_iff hslice]
    have hmul : (n : ℝ) * (twoPi / (n : ℝ)) = twoPi := by field_simp
    rw [hmul]
    exact wrapTwoPi_lt _
  have htr : rtrunc (wrapTwoPi (POINTER_ANGLE - θ) / (twoPi / (n : ℝ))) =
      ⌊wrapTwoPi (POINTER_ANGLE - θ) / (twoPi / (n : ℝ))⌋ := by
    unfold rtrunc; rw [if_pos hz0]
  have hfl0 : 0 ≤ ⌊wrapTwoPi (POINTER_ANGLE - θ) / (twoPi / (n : ℝ))⌋ :=
    Int.floor_nonneg.mpr hz0
  have hfln : ⌊wrapTwoPi (POINTER_ANGLE - θ) / (twoPi / (n : ℝ))⌋ < n :=
    Int.floor_lt.mpr hzn
  have hval : pointer_slice_index θ n =
      ⌊wrapTwoPi (POINTER_ANGLE - θ) / (twoPi / (n : ℝ))⌋ := by
    unfold pointer_slice_index
    rw [if_neg hn0]
    show (if n ≤ rtrunc (wrapTwoPi (POINTER_ANGLE - θ) / (twoPi / (n : ℝ))) then n - 1
          else rtrunc (wrapTwoPi (POINTER_ANGLE - θ) / (twoPi / (n : ℝ)))) = _
    rw [htr, if_neg (not_le.mpr hfln)]
  exact ⟨hval, by rw [hval]; exact hfl0, by rw [hval]; exact hfln⟩

lemma resolveWinnerIndexSpec_eq_floor (θ : ℝ) (n : ℤ) (hn : 1 ≤ n) :
    resolveWinnerIndexSpec θ n =
      ⌊wrapTwoPi (POINTER_ANGLE - θ) / (twoPi / (n : ℝ))⌋ := by
  obtain ⟨hval, h0, hlt⟩ := pointer_slice_index_eq_floor θ n hn
  rw [hval] at h0 hlt
  unfold resolveWinnerIndexSpec
  rw [← wrapTwoPi_eq_normalizeSpec]
  rw [min_eq_right (by omega), max_eq_right h0]

lemma stepPhys_entries (dt : ℝ) (s : AppState) :
    (stepPhys dt s).entries = s.entries := by
  simp only [stepPhys, physicsBlock]
  split_ifs <;> rfl

lemma stepPhys_friction (dt : ℝ) (s : AppState) :
    (stepPhys dt s).spin_friction = s.spin_friction := by
  simp only [stepPhys, physicsBlock]
  split_ifs <;> rfl

lemma stepPhys_id_of_guard_false (dt : ℝ) (s : AppState)
    (h : ¬(s.spinning = true ∧ 0 < (s.entries.length : ℤ))) :
    stepPhys dt s = s := by
  simp only [stepPhys, physicsBlock]
  rw [if_neg h]

lemma stepPhys_frozen (dt : ℝ) (s : AppState) (h : s.spinning = false) :
    stepPhys dt s = s := by
  refine stepPhys_id_of_guard_false dt s ?_
  rintro ⟨h1, -⟩
  rw [h] at h1
  exact Bool.false_ne_true h1

lemma stepPhys_step_pos (dt : ℝ) (s : AppState) (hs : s.spinning = true)
    (hne : s.entries ≠ [])
    (hv : 0 < s.angular_velocity - max 0 s.spin_friction * dt) :
    stepPhys dt s =
      {s with current_angle := wrapTwoPi (s.current_angle + s.angular_velocity * dt),
              angular_velocity := s.angular_velocity - max 0 s.spin_friction * dt} := by
  have hlen : 0 < s.entries.length := List.length_pos.mpr hne
  have hn : (0 : ℤ) < (s.entries.length : ℤ) := by exact_mod_cast hlen
  simp only [stepPhys, physicsBlock]
  rw [if_pos ⟨hs, hn⟩, if_neg (not_le.mpr hv)]

lemma stepPhys_step_stop (dt : ℝ) (s : AppState) (hs : s.spinning = true)
    (hne : s.entries ≠ [])
    (hv : s.angular_velocity - max 0 s.spin_friction * dt ≤ 0) :
    (stepPhys dt s).spinning = false ∧
    (stepPhys dt s).winner_index =
      pointer_slice_index (wrapTwoPi (s.current_angle + s.angular_velocity * dt))
        (s.entries.length : ℤ) ∧
    0 ≤ (stepPhys dt s).winner_index ∧
    (stepPhys dt s).winner_index < (s.entries.length : ℤ) ∧
    (stepPhys dt s).angular_velocity = 0 := by
  have hlen : 0 < s.entries.length := List.length_pos.mpr hne
  have hn : (0 : ℤ) < (s.entries.length : ℤ) := by exact_mod_cast hlen
  have hn1 : (1 : ℤ) ≤ (s.entries.length : ℤ) := hn
  obtain ⟨-, hidx0, hidxn⟩ :=
    pointer_slice_index_eq_floor
      (wrapTwoPi (s.current_angle + s.angular_velocity * dt)) (s.entries.length : ℤ) hn1
  simp only [stepPhys, physicsBlock]
  rw [if_pos ⟨hs, hn⟩, if_pos hv, if_pos ⟨hidx0, hidxn⟩]
  exact ⟨rfl, rfl, hidx0, hidxn, rfl⟩

lemma stepPhys_winner_of_result_spinning (dt : ℝ) (s : AppState)
    (h : (stepPhys dt s).spinning = true) :
    (stepPhys dt s).winner_index = s.winner_index := by
  by_cases hg : s.spinning = true ∧ 0 < (s.entries.length : ℤ)
  · have hne : s.entries ≠ [] := by
      intro hnil
      rw [hnil] at hg
      simp at hg
    by_cases hv : s.angular_velocity - max 0 s.spin_friction * dt ≤ 0
    · exfalso
      have hstop : (stepPhys dt s).spinning = false := by
        simp only [stepPhys, physicsBlock]
        rw [if_pos hg, if_pos hv]
        split_ifs <;> rfl
      rw [hstop] at h
      exact Bool.false_ne_true h
    · push_neg at hv
      rw [stepPhys_step_pos dt s hg.1 hne hv]
  · rw [stepPhys_id_of_guard_false dt s hg]

lemma spin_stops_aux (dt : ℝ) (hdt : 0 < dt) :
    ∀ (N : ℕ) (s : AppState), 0 < s.spin_friction → s.entries ≠ [] →
      s.angular_velocity ≤ (N : ℝ) * (s.spin_friction * dt) →
      ∃ k ≤ N + 1, ((stepPhys dt)^[k] s).spinning = false := by
  intro N
  induction N with
  | zero =>
    intro s hf hne hv
    by_cases hs : s.spinning = true
    · refine ⟨1, le_refl 1, ?_⟩
      have hmax : max 0 s.spin_friction = s.spin_friction := max_eq_right hf.le
      have hfd : 0 < s.spin_friction * dt := mul_pos hf hdt
      have hv0 : s.angular_velocity ≤ 0 := by
        simpa using hv
      have hv' : s.angular_velocity - max 0 s.spin_friction * dt ≤ 0 := by
        rw [hmax]; linarith
      rw [Function.iterate_one]
      exact (stepPhys_step_stop dt s hs hne hv').1
    · refine ⟨0, Nat.zero_le _, ?_⟩
      rw [Function.iterate_zero_apply]
      exact eq_false_of_ne_true hs
  | succ N ih =>
    intro s hf hne hv
    by_cases hs : s.spinning = true
    · by_cases hv' : s.angular_velocity - max 0 s.spin_friction * dt ≤ 0
      · refine ⟨1, by omega, ?_⟩
        rw [Function.iterate_one]
        exact (stepPhys_step_stop dt s hs hne hv').1
      · push_neg at hv'
        have heq := stepPhys_step_pos dt s hs hne hv'
        have hmax : max 0 s.spin_friction = s.spin_friction := max_eq_right hf.le
        have hf2 : 0 < (stepPhys dt s).spin_friction := by
          rw [stepPhys_friction]; exact hf
        have hne2 : (stepPhys dt s).entries ≠ [] := by
          rw [stepPhys_entries]; exact hne
        have hv2 : (stepPhys dt s).angular_velocity ≤
            (N : ℝ) * ((stepPhys dt s).spin_friction * dt) := by
          rw [stepPhys_friction, heq]
          show s.angular_velocity - max 0 s.spin_friction * dt ≤ _
          rw [hmax]
          push_cast at hv
          linarith
        obtain ⟨k, hk, hstop⟩ := ih (stepPhys dt s) hf2 hne2 hv2
        refine ⟨k + 1, by omega, ?_⟩
        rw [Function.iterate_succ_apply]
        exact hstop
    · refine ⟨0, Nat.zero_le _, ?_⟩
      rw [Function.iterate_zero_apply]
      exact eq_false_of_ne_true hs

lemma iterate_entries (dt : ℝ) (s : AppState) (m : ℕ) :
    ((stepPhys dt)^[m] s).entries = s.entries := by
  induction m with
  | zero => rfl
  | succ m ihm => rw [Function.iterate_succ_apply', stepPhys_entries, ihm]

lemma iterate_frozen_from (dt : ℝ) (s : AppState) (k : ℕ)
    (h : ((stepPhys dt)^[k] s).spinning = false) :
    ∀ i, (stepPhys dt)^[k + i] s = (stepPhys dt)^[k] s := by
  intro i
  induction i with
  | zero => rfl
  | succ i ihi =>
      have : k + (i + 1) = (k + i) + 1 := by omega
      rw [this, Function.iterate_succ_apply', ihi, stepPhys_frozen dt _ h]

lemma spin_resolution (s : AppState) (dt : ℝ) (hs : s.spinning = true)
    (hf : 0 < s.spin_friction) (hdt : 0 < dt) (hne : s.entries ≠ []) :
    ∃ k w, ((stepPhys dt)^[k] s).spinning = false ∧
      0 ≤ w ∧ w < (s.entries.length : ℤ) ∧
      (∀ j, j < k → ((stepPhys dt)^[j] s).spinning = true ∧
        ((stepPhys dt)^[j] s).winner_index = s.winner_index) ∧
      (∀ m, k ≤ m → ((stepPhys dt)^[m] s).spinning = false ∧
        ((stepPhys dt)^[m] s).winner_index = w) := by
  classical
  have hfd : 0 < s.spin_friction * dt := mul_pos hf hdt
  obtain ⟨N, hN⟩ := exists_nat_ge (s.angular_velocity / (s.spin_friction * dt))
  have hvN : s.angular_velocity ≤ (N : ℝ) * (s.spin_friction * dt) := by
    rw [div_le_iff₀ hfd] at hN
    linarith
  obtain ⟨k0, _, hk0⟩ := spin_stops_aux dt hdt N s hf hne hvN
  have hex : ∃ k, ((stepPhys dt)^[k] s).spinning = false := ⟨k0, hk0⟩
  have hkstop : ((stepPhys dt)^[Nat.find hex] s).spinning = false := Nat.find_spec hex
  have hkmin : ∀ j, j < Nat.find hex → ((stepPhys dt)^[j] s).spinning = true := by
    intro j hj
    cases hcase : ((stepPhys dt)^[j] s).spinning with
    | false => exact absurd hcase (Nat.find_min hex hj)
    | true => rfl
  have hwin : ∀ j, j < Nat.find hex →
      ((stepPhys dt)^[j] s).winner_index = s.winner_index := by
    intro j hj
    induction j with
    | zero => rfl
    | succ j ihj =>
        have hj' : j < Nat.find hex := by omega
        have hsp : ((stepPhys dt)^[j + 1] s).spinning = true := hkmin _ hj
        rw [Function.iterate_succ_apply'] at hsp ⊢
        rw [stepPhys_winner_of_result_spinning dt _ hsp]
        exact ihj hj'
  have hk1 : 1 ≤ Nat.find hex := by
    by_contra h
    have h0 : Nat.find hex = 0 := by omega
    rw [h0, Function.iterate_zero_apply, hs] at hkstop
    exact absurd hkstop (by decide)
  have hts : ((stepPhys dt)^[Nat.find hex - 1] s).spinning = true :=
    hkmin _ (by omega)
  have htne : ((stepPhys dt)^[Nat.find hex - 1] s).entries ≠ [] := by
    rw [iterate_entries]; exact hne
  have hstepk : stepPhys dt ((stepPhys dt)^[Nat.find hex - 1] s) =
      (stepPhys dt)^[Nat.find hex] s := by
    have h1 : Nat.find hex = (Nat.find hex - 1) + 1 := by omega
    conv_rhs => rw [h1]
    rw [Function.iterate_succ_apply']
  have hv' : ((stepPhys dt)^[Nat.find hex - 1] s).angular_velocity -
      max 0 ((stepPhys dt)^[Nat.find hex - 1] s).spin_friction * dt ≤ 0 := by
    by_contra hPos
    push_neg at hPos
    have heq := stepPhys_step_pos dt _ hts htne hPos
    have hsp : (stepPhys dt ((stepPhys dt)^[Nat.find hex - 1] s)).spinning = true := by
      rw [heq]
      exact hts
    rw [hstepk, hkstop] at hsp
    exact Bool.false_ne_true hsp
  obtain ⟨-, -, hw0, hwlt, -⟩ := stepPhys_step_stop dt _ hts htne hv'
  rw [hstepk] at hw0 hwlt
  rw [iterate_entries] at hwlt
  refine ⟨Nat.find hex, ((stepPhys dt)^[Nat.find hex] s).winner_index,
    hkstop, hw0, hwlt, fun j hj => ⟨hkmin j hj, hwin j hj⟩, ?_⟩
  intro m hm
  have hmk : m = Nat.find hex + (m - Nat.find hex) := by omega
  rw [hmk, iterate_frozen_from dt s (Nat.find hex) hkstop]
  exact ⟨hkstop, rfl⟩

lemma physicsBlock_not_spinning (entriesC : List WheelEntry) (dt : ℝ)
    (s : AppState) (h : s.spinning = false) :
    physicsBlock entriesC dt s = s := by
  simp only [physicsBlock]
  rw [if_neg]
  rintro ⟨h1, -⟩
  rw [h] at h1
  exact Bool.false_ne_true h1

lemma stepPhys_angle_range (dt : ℝ) (s : AppState)
    (h0 : 0 ≤ s.current_angle) (h1 : s.current_angle < twoPi) :
    0 ≤ (stepPhys dt s).current_angle ∧ (stepPhys dt s).current_angle < twoPi := by
  by_cases hg : s.spinning = true ∧ 0 < (s.entries.length : ℤ)
  · have hang : (stepPhys dt s).current_angle =
        wrapTwoPi (s.current_angle + s.angular_velocity * dt) := by
      simp only [stepPhys, physicsBlock]
      rw [if_pos hg]
      split_ifs <;> rfl
    rw [hang]
    exact ⟨wrapTwoPi_nonneg _, wrapTwoPi_lt _⟩
  · rw [stepPhys_id_of_guard_false dt s hg]
    exact ⟨h0, h1⟩

lemma runPhysSeq_angle_range (dts : List ℝ) (s : AppState)
    (h0 : 0 ≤ s.current_angle) (h1 : s.current_angle < twoPi) :
    0 ≤ (runPhysSeq dts s).current_angle ∧
      (runPhysSeq dts s).current_angle < twoPi := by
  induction dts generalizing s with
  | nil => exact ⟨h0, h1⟩
  | cons d ds ih =>
      simp only [runPhysSeq, List.foldl_cons]
      obtain ⟨g0, g1⟩ := stepPhys_angle_range d s h0 h1
      exact ih (stepPhys d s) g0 g1

/-- C2: for every participantCount `n ≥ 1` and every rotationAngle,
`pointer_slice_index` returns `floor(normalize(referenceBearing −
rotationAngle) / (2π/n))` with `normalize` into `[0, 2π)` and reference
bearing `−π/2`, clamped into `[0, n−1]`; being a Lean function of
`(rotationAngle, participantCount)` it is pure, so identical inputs give
the identical index. -/
theorem C2_resolve_winner (θ : ℝ) (n : ℤ) (hn : 1 ≤ n) :
    pointer_slice_index θ n = resolveWinnerIndexSpec θ n ∧
    0 ≤ pointer_slice_index θ n ∧ pointer_slice_index θ n ≤ n - 1 := by
  obtain ⟨hval, h0, hlt⟩ := pointer_slice_index_eq_floor θ n hn
  rw [resolveWinnerIndexSpec_eq_floor θ n hn]
  exact ⟨hval, h0, by omega⟩

/-- Witness for C2 at `rotationAngle = 0`, `participantCount = 1`. -/
theorem C2_witness :
    (1 : ℤ) ≤ 1 ∧
    (pointer_slice_index 0 1 = resolveWinnerIndexSpec 0 1 ∧
     0 ≤ pointer_slice_index 0 1 ∧ pointer_slice_index 0 1 ≤ 1 - 1) :=
  ⟨by decide, C2_resolve_winner 0 1 (by decide)⟩

/-- C3: with positive friction and velocity at spin start, iterating the
physics step with any fixed `dt > 0` stops the wheel after finitely many
steps, and `winner_index` is assigned exactly once: it stays `-1` before
the stopping step and holds one fixed in-range value from then on. -/
theorem C3_termination (s : AppState) (dt : ℝ) (hs : s.spinning = true)
    (hv : 0 < s.angular_velocity) (hf : 0 < s.spin_friction) (hdt : 0 < dt)
    (hne : s.entries ≠ []) (hw : s.winner_index = -1) :
    ∃ k w, ((stepPhys dt)^[k] s).spinning = false ∧
      0 ≤ w ∧ w < (s.entries.length : ℤ) ∧
      (∀ j, j < k → ((stepPhys dt)^[j] s).spinning = true ∧
        ((stepPhys dt)^[j] s).winner_index = -1) ∧
      (∀ m, k ≤ m → ((stepPhys dt)^[m] s).spinning = false ∧
        ((stepPhys dt)^[m] s).winner_index = w) := by
  obtain ⟨k, w, h1, h2, h3, h4, h5⟩ := spin_resolution s dt hs hf hdt hne
  refine ⟨k, w, h1, h2, h3, fun j hj => ⟨(h4 j hj).1, ?_⟩, h5⟩
  rw [(h4 j hj).2, hw]

/-- Witness for C3 on a concrete two-participant spin with `dt = 1`. -/
theorem C3_witness :
    ∃ k w, ((stepPhys 1)^[k] spinSample).spinning = false ∧
      0 ≤ w ∧ w < (spinSample.entries.length : ℤ) ∧
      (∀ j, j < k → ((stepPhys 1)^[j] spinSample).spinning = true ∧
        ((stepPhys 1)^[j] spinSample).winner_index = -1) ∧
      (∀ m, k ≤ m → ((stepPhys 1)^[m] spinSample).spinning = false ∧
        ((stepPhys 1)^[m] spinSample).winner_index = w) :=
  C3_termination spinSample 1 rfl (by show (0 : ℝ) < 12; norm_num)
    (by show (0 : ℝ) < 2; norm_num) (by norm_num) (by decide) rfl

/-- C4: starting from an angle in `[0, 2π)`, any sequence of physics
advances keeps the post-advance rotation angle in `[0, 2π)`. -/
theorem C4_angle_wrap (s : AppState) (dts : List ℝ)
    (h0 : 0 ≤ s.current_angle) (h1 : s.current_angle < twoPi)
    (hv : 0 ≤ s.angular_velocity) (hdts : ∀ d ∈ dts, 0 ≤ d) :
    0 ≤ (runPhysSeq dts s).current_angle ∧
      (runPhysSeq dts s).current_angle < twoPi :=
  runPhysSeq_angle_range dts s h0 h1

/-- Witness for C4 on a concrete spin state with one `dt = 1` step. -/
theorem C4_witness :
    0 ≤ (runPhysSeq [1] spinSample).current_angle ∧
      (runPhysSeq [1] spinSample).current_angle < twoPi :=
  C4_angle_wrap spinSample [1] (le_refl 0) twoPi_pos
    (by show (0 : ℝ) ≤ 12; norm_num)
    (by intro d hd; rw [List.mem_singleton] at hd; rw [hd]; norm_num)

/-- C6: `add_player_if_new` appends exactly when the name is non-empty and
absent (case-sensitive), is a no-op otherwise, keeps the name list
duplicate-free under any call sequence, and adds of "alice", "bob",
"alice" from empty yield `["alice", "bob"]`. -/
theorem C6_add_if_absent (name : String) (entries : List WheelEntry) (pal : ℕ) :
    (name ≠ "" → name ∉ regNames entries →
      add_player_if_new name entries pal =
        (entries ++ [⟨name, random_color pal⟩], pal + 1)) ∧
    (name = "" ∨ name ∈ regNames entries →
      add_player_if_new name entries pal = (entries, pal)) ∧
    (∀ ns st, (regNames st.1).Nodup → (regNames (addSeq ns st).1).Nodup) ∧
    regNames (addSeq ["alice", "bob", "alice"] ([], 0)).1 = ["alice", "bob"] := by
  refine ⟨?_, add_player_if_new_noop name entries pal, ?_, ?_⟩
  · intro h0 h1
    exact add_player_if_new_of_absent name entries pal h0 h1
  · intro ns st h
    exact addSeq_nodup ns st h
  · decide

/-- Witness for C6: adding "bob" to a registry holding "alice". -/
theorem C6_witness :
    add_player_if_new "bob" [⟨"alice", 0⟩] 1 =
      ([⟨"alice", 0⟩] ++ [⟨"bob", random_color 1⟩], 1 + 1) :=
  (C6_add_if_absent "bob" [⟨"alice", 0⟩] 1).1 (by decide) (by decide)

/-- C7: the engagement-gate setter is edge-triggered with respect to the
external countdown timer: an Open transition from Closed issues exactly
one Start call (preceded by the 60 s reset), a Close transition from Open
issues exactly one Stop call, and setting the gate to the value it already
holds issues no timer call and leaves the state untouched. -/
theorem C7_gate_edge (s : AppState) (b : Bool) :
    (s.join_open = false → b = true →
      (set_join_open s b).2 = [TimerCall.reset 60, TimerCall.start] ∧
      ((set_join_open s b).2.countP (fun c => c.isStart)) = 1 ∧
      ((set_join_open s b).2.countP (fun c => c.isStop)) = 0 ∧
      ((set_join_open s b).1).join_open = true) ∧
    (s.join_open = true → b = false →
      (set_join_open s b).2 = [TimerCall.stop] ∧
      ((set_join_open s b).2.countP (fun c => c.isStop)) = 1 ∧
      ((set_join_open s b).2.countP (fun c => c.isStart)) = 0 ∧
      ((set_join_open s b).1).join_open = false) ∧
    (s.join_open = b → set_join_open s b = (s, [])) := by
  refine ⟨?_, ?_, ?_⟩
  · intro h1 h2
    subst h2
    unfold set_join_open
    rw [h1]
    simp [List.countP_cons, TimerCall.isStart, TimerCall.isStop]
  · intro h1 h2
    subst h2
    unfold set_join_open
    rw [h1]
    simp [List.countP_cons, TimerCall.isStart, TimerCall.isStop]
  · intro h
    unfold set_join_open
    rw [if_pos h]

/-- Witness for C7: opening the gate from the initial closed state. -/
theorem C7_witness :
    (set_join_open baseState true).2 = [TimerCall.reset 60, TimerCall.start] ∧
    ((set_join_open baseState true).2.countP (fun c => c.isStart)) = 1 :=
  ⟨((C7_gate_edge baseState true).1 rfl rfl).1,
   ((C7_gate_edge baseState true).1 rfl rfl).2.1⟩

/-- C9: on a chat-message line (contains `PRIVMSG`, not a keepalive probe)
where the sender extraction or the message-text extraction fails, handling
the line leaves the registry unchanged and sends no reply. -/
theorem C9_parse_miss (l : List Char) (joinOpen : Bool)
    (entries : List WheelEntry) (pal : ℕ) (priv : ℕ)
    (hping : startsWithL ("PING".data) l = false)
    (hpriv : findSubFrom l ("PRIVMSG".data) 0 = some priv)
    (hfail : parse_username_from_irc_line l = [] ∨
      findSubFrom l (" :".data) priv = none) :
    handle_irc_line l joinOpen entries pal = ((entries, pal), []) := by
  have hlne : l ≠ [] := by
    intro h
    rw [h] at hpriv
    have hnone : findSubFrom ([] : List Char) ("PRIVMSG".data) 0 = none := by decide
    rw [hnone] at hpriv
    exact Option.noConfusion hpriv
  unfold handle_irc_line
  rw [if_neg hlne, hping]
  simp only [Bool.false_eq_true, if_false, hpriv]
  rcases hfail with hu | hc
  · cases hcap : findSubFrom l (" :".data) priv with
    | none => rfl
    | some cap =>
        simp only [hu]
        have hmk : String.mk ([] : List Char) = "" := rfl
        rw [hmk]
        have hadd : add_player_if_new "" entries pal = (entries, pal) :=
          add_player_if_new_noop "" entries pal (Or.inl rfl)
        rw [hadd]
        split_ifs <;> rfl
  · rw [hc]

/-- Witness for C9: a PRIVMSG line with no " :" text marker after the
marker token. -/
theorem C9_witness :
    startsWithL ("PING".data) (":a!b PRIVMSG #c hi".data) = false ∧
    handle_irc_line (":a!b PRIVMSG #c hi".data) true [⟨"alice", 0⟩] 3 =
      (([⟨"alice", 0⟩], 3), []) :=
  ⟨by decide,
   C9_parse_miss (":a!b PRIVMSG #c hi".data) true [⟨"alice", 0⟩] 3 5
     (by decide) (by decide) (Or.inr (by decide))⟩

lemma physicsBlock_hold (entriesC : List WheelEntry) (dt : ℝ) (s : AppState) :
    (physicsBlock entriesC dt s).reset_hold_active = s.reset_hold_active ∧
    (physicsBlock entriesC dt s).reset_hold_elapsed = s.reset_hold_elapsed ∧
    (physicsBlock entriesC dt s).reset_hold_source = s.reset_hold_source := by
  simp only [physicsBlock]
  split_ifs <;> exact ⟨rfl, rfl, rfl⟩

lemma flashBlock_hold (dt : ℝ) (s : AppState) :
    (flashBlock dt s).reset_hold_active = s.reset_hold_active ∧
    (flashBlock dt s).reset_hold_elapsed = s.reset_hold_elapsed ∧
    (flashBlock dt s).reset_hold_source = s.reset_hold_source := by
  simp only [flashBlock]
  split_ifs <;> exact ⟨rfl, rfl, rfl⟩

lemma celebrationBlock_hold (dt : ℝ) (s : AppState) :
    (celebrationBlock dt s).reset_hold_active = s.reset_hold_active ∧
    (celebrationBlock dt s).reset_hold_elapsed = s.reset_hold_elapsed ∧
    (celebrationBlock dt s).reset_hold_source = s.reset_hold_source := by
  simp only [celebrationBlock]
  split_ifs <;> exact ⟨rfl, rfl, rfl⟩

lemma chain_hold (entriesC : List WheelEntry) (dt : ℝ) (s : AppState) :
    (celebrationBlock dt (flashBlock dt (physicsBlock entriesC dt s))).reset_hold_active
        = s.reset_hold_active ∧
    (celebrationBlock dt (flashBlock dt (physicsBlock entriesC dt s))).reset_hold_elapsed
        = s.reset_hold_elapsed ∧
    (celebrationBlock dt (flashBlock dt (physicsBlock entriesC dt s))).reset_hold_source
        = s.reset_hold_source := by
  obtain ⟨a1, a2, a3⟩ := physicsBlock_hold entriesC dt s
  obtain ⟨b1, b2, b3⟩ := flashBlock_hold dt (physicsBlock entriesC dt s)
  obtain ⟨c1, c2, c3⟩ := celebrationBlock_hold dt (flashBlock dt (physicsBlock entriesC dt s))
  exact ⟨c1.trans (b1.trans a1), c2.trans (b2.trans a2), c3.trans (b3.trans a3)⟩

/-- C10: if a tick starts with the reset hold active but no winner showing
(neither celebration nor a set winner index), the tick cancels the hold:
`reset_hold_active` becomes false and the hold's elapsed time and source
are zeroed. -/
theorem C10_hold_needs_winner (s : AppState) (nick : String) (uF uS dt : ℝ)
    (hact : s.reset_hold_active = true) (hno : winnerShowing s = false) :
    (frame nick uF uS dt s).reset_hold_active = false ∧
    (frame nick uF uS dt s).reset_hold_elapsed = 0 ∧
    (frame nick uF uS dt s).reset_hold_source = 0 := by
  have h1 : holdBlock nick uF uS dt s =
      {s with reset_hold_active := false, reset_hold_elapsed := 0,
              reset_hold_source := 0} := by
    unfold holdBlock
    rw [if_pos hact, if_pos hno]
  simp only [frame]
  rw [h1]
  obtain ⟨e1, e2, e3⟩ := chain_hold s.entries dt
    {s with reset_hold_active := false, reset_hold_elapsed := 0,
            reset_hold_source := 0}
  exact ⟨e1, e2, e3⟩

/-- Witness for C10: a stray active hold in the initial state is cancelled
by one tick. -/
theorem C10_witness :
    (frame "host" 0 0 1
      {baseState with reset_hold_active := true, reset_hold_source := 1}).reset_hold_active
        = false ∧
    (frame "host" 0 0 1
      {baseState with reset_hold_active := true, reset_hold_source := 1}).reset_hold_elapsed
        = 0 ∧
    (frame "host" 0 0 1
      {baseState with reset_hold_active := true, reset_hold_source := 1}).reset_hold_source
        = 0 :=
  C10_hold_needs_winner {baseState with reset_hold_active := true, reset_hold_source := 1}
    "host" 0 0 1 rfl rfl

lemma flashBlock_id (dt : ℝ) (s : AppState)
    (h : ¬(0 < s.winner_flash_remaining)) : flashBlock dt s = s := by
  simp only [flashBlock]
  rw [if_neg h]

lemma celebrationBlock_id (dt : ℝ) (s : AppState)
    (h : s.celebration_active = false) : celebrationBlock dt s = s := by
  simp only [celebrationBlock]
  rw [if_neg]
  rw [h]
  exact Bool.false_ne_true

lemma handle_reset (nick : String) (uF uS : ℝ) (s : AppState)
    (hw : winnerShowing s = true) (hn : nick ≠ "") :
    handle_spin_or_reset nick uF uS s =
      {s with celebration_active := false, celebration_time := 0,
              celebration_name := "",
              winner_flash_remaining := 0, winner_flash_elapsed := 0,
              winner_index := -1,
              spinning := false, angular_velocity := 0,
              entries := [⟨nick, random_color s.paletteIdx⟩],
              paletteIdx := s.paletteIdx + 1,
              join_open := false} := by
  unfold handle_spin_or_reset
  rw [if_pos hw, if_neg hn]
  have hadd := add_player_if_new_of_absent nick [] s.paletteIdx hn
    (by simp [regNames])
  simp only [hadd, List.nil_append]

/-- C8: from a winner-display state, starting the reset hold and ticking
with `dt ≥ 1.0 s` performs the round reset: winner, celebration and flash
state cleared, spinning stopped at zero velocity, registry cleared, gate
forced closed, and the configured host re-added as the sole entry. -/
theorem C8_reset_completes (s : AppState) (nick : String) (uF uS dt : ℝ)
    (hwin : winnerShowing s = true) (hhold : s.reset_hold_active = false)
    (hdt : 1 ≤ dt) (hnick : nick ≠ "") :
    frame nick uF uS dt (onSpaceDownNative nick uF uS s) =
      {s with celebration_active := false, celebration_time := 0,
              celebration_name := "",
              winner_flash_remaining := 0, winner_flash_elapsed := 0,
              winner_index := -1,
              spinning := false, angular_velocity := 0,
              entries := [⟨nick, random_color s.paletteIdx⟩],
              paletteIdx := s.paletteIdx + 1,
              join_open := false,
              reset_hold_active := false, reset_hold_elapsed := 0,
              reset_hold_source := 0} := by
  have h1 : onSpaceDownNative nick uF uS s =
      {s with reset_hold_active := true, reset_hold_elapsed := 0,
              reset_hold_source := 1} := by
    unfold onSpaceDownNative holdStartOrSpin
    rw [if_pos hwin, if_pos hhold]
  have hws1 : winnerShowing {s with reset_hold_active := true,
                                    reset_hold_elapsed := 0,
                                    reset_hold_source := 1} = true := hwin
  have hcond2 : ¬(winnerShowing {s with reset_hold_active := true,
                                        reset_hold_elapsed := 0,
                                        reset_hold_source := 1} = false) := by
    rw [hws1]
    exact Bool.true_eq_false ▸ (by simp)
  have hcond3 : (1 : ℝ) ≤
      ({s with reset_hold_active := true, reset_hold_elapsed := 0,
               reset_hold_source := 1} : AppState).reset_hold_elapsed + dt := by
    show (1 : ℝ) ≤ 0 + dt
    rw [zero_add]
    exact hdt
  have h2 : holdBlock nick uF uS dt
      {s with reset_hold_active := true, reset_hold_elapsed := 0,
              reset_hold_source := 1} =
      handle_spin_or_reset nick uF uS
        {s with reset_hold_active := false, reset_hold_elapsed := 0,
                reset_hold_source := 0} := by
    unfold holdBlock
    rw [if_pos rfl, if_neg hcond2, if_pos hcond3]
  have hws2 : winnerShowing {s with reset_hold_active := false,
                                    reset_hold_elapsed := 0,
                                    reset_hold_source := 0} = true := hwin
  have h3 := handle_reset nick uF uS
    {s with reset_hold_active := false, reset_hold_elapsed := 0,
            reset_hold_source := 0} hws2 hnick
  simp only [frame]
  rw [h1, h2, h3]
  rw [physicsBlock_not_spinning _ _ _ rfl]
  rw [flashBlock_id _ _ (by norm_num : ¬((0 : ℝ) < 0))]
  rw [celebrationBlock_id _ _ rfl]

/-- Witness for C8 on a concrete winner-display state, host "host",
`dt = 1`. -/
theorem C8_witness :
    frame "host" 0 0 1 (onSpaceDownNative "host" 0 0 winSample) =
      {winSample with
              celebration_active := false, celebration_time := 0,
              celebration_name := "",
              winner_flash_remaining := 0, winner_flash_elapsed := 0,
              winner_index := -1,
              spinning := false, angular_velocity := 0,
              entries := [⟨"host", random_color winSample.paletteIdx⟩],
              paletteIdx := winSample.paletteIdx + 1,
              join_open := false,
              reset_hold_active := false, reset_hold_elapsed := 0,
              reset_hold_source := 0} :=
  C8_reset_completes winSample "host" 0 0 1 rfl rfl (le_refl 1) (by decide)

/-- C1 counterexample: in the native event loop, the right-mouse-button
toggle is processed even while a winner is displayed — it flips
`join_open` from false to true. -/
theorem C1_counterexample :
    winnerShowing winSample = true ∧ winSample.join_open = false ∧
    (onRightDownNative winSample).join_open = true :=
  ⟨rfl, rfl, rfl⟩

/-- C1 amended: while a winner is displayed, the SpinTrigger inputs leave
the spin state and the gate unchanged in both event loops, and the
emscripten loop ignores the right-click toggle entirely; the native loop,
however, still toggles `join_open` on right click. -/
theorem C1_amended (s : AppState) (nick : String) (uF uS : ℝ)
    (hwin : winnerShowing s = true) :
    onRightDownEm s = s ∧
    ((onSpaceDownEm nick uF uS s).spinning = s.spinning ∧
      (onSpaceDownEm nick uF uS s).join_open = s.join_open) ∧
    ((onLeftDownEm nick uF uS s).spinning = s.spinning ∧
      (onLeftDownEm nick uF uS s).join_open = s.join_open) ∧
    ((onSpaceDownNative nick uF uS s).spinning = s.spinning ∧
      (onSpaceDownNative nick uF uS s).join_open = s.join_open) ∧
    ((onLeftDownNative nick uF uS s).spinning = s.spinning ∧
      (onLeftDownNative nick uF uS s).join_open = s.join_open) ∧
    (onRightDownNative s).join_open = !s.join_open := by
  have hh : ∀ src : ℤ, (holdStartOrSpin src nick uF uS s).spinning = s.spinning ∧
      (holdStartOrSpin src nick uF uS s).join_open = s.join_open := by
    intro src
    unfold holdStartOrSpin
    rw [if_pos hwin]
    split_ifs <;> exact ⟨rfl, rfl⟩
  refine ⟨?_, ?_, ?_, hh 1, hh 2, rfl⟩
  · unfold onRightDownEm
    rw [if_pos hwin]
  · unfold onSpaceDownEm
    split_ifs with h
    · exact ⟨rfl, rfl⟩
    · exact hh 1
  · unfold onLeftDownEm
    split_ifs with h
    · exact ⟨rfl, rfl⟩
    · exact hh 2

/-- Witness for C1 (amended) on a concrete winner-display state. -/
theorem C1_witness :
    winnerShowing winSample = true ∧ onRightDownEm winSample = winSample :=
  ⟨rfl, (C1_amended winSample "host" 0 0 rfl).1⟩

/-- C5 counterexample: the emscripten `wheel_spin` entry point starts a
spin although a winner is currently displayed. -/
theorem C5_counterexample :
    winnerShowing winSample = true ∧ winSample.spinning = false ∧
    (wheel_spin 0 0 winSample).spinning = true := by
  refine ⟨rfl, rfl, ?_⟩
  unfold wheel_spin
  rw [if_neg (by decide), if_neg (by decide)]

/-- C5 amended: via the keyboard/mouse handler a spin starts iff the count
is ≥ 2, the wheel is idle, no winner is showing and the gate is closed;
via the emscripten `wheel_spin` entry the winner-showing condition is not
checked — a spin starts iff count ≥ 2, idle and gate closed.  Whenever a
spin starts, the velocity lies in [10, 13], the friction in [1.8, 5.6],
and the winner index and flash state are cleared. -/
theorem C5_amended (s : AppState) (nick : String) (uF uS : ℝ)
    (hs : s.spinning = false)
    (huF0 : 0 ≤ uF) (huF1 : uF < 1) (huS0 : 0 ≤ uS) (huS1 : uS < 1) :
    ((handle_spin_or_reset nick uF uS s).spinning = true ↔
      winnerShowing s = false ∧ 2 ≤ s.entries.length ∧ s.join_open = false) ∧
    ((wheel_spin uF uS s).spinning = true ↔
      2 ≤ s.entries.length ∧ s.join_open = false) ∧
    ((handle_spin_or_reset nick uF uS s).spinning = true →
      10 ≤ (handle_spin_or_reset nick uF uS s).angular_velocity ∧
      (handle_spin_or_reset nick uF uS s).angular_velocity ≤ 13 ∧
      1.8 ≤ (handle_spin_or_reset nick uF uS s).spin_friction ∧
      (handle_spin_or_reset nick uF uS s).spin_friction ≤ 5.6 ∧
      (handle_spin_or_reset nick uF uS s).winner_index = -1 ∧
      (handle_spin_or_reset nick uF uS s).winner_flash_remaining = 0 ∧
      (handle_spin_or_reset nick uF uS s).winner_flash_elapsed = 0) ∧
    ((wheel_spin uF uS s).spinning = true →
      10 ≤ (wheel_spin uF uS s).angular_velocity ∧
      (wheel_spin uF uS s).angular_velocity ≤ 13 ∧
      1.8 ≤ (wheel_spin uF uS s).spin_friction ∧
      (wheel_spin uF uS s).spin_friction ≤ 5.6 ∧
      (wheel_spin uF uS s).winner_index = -1 ∧
      (wheel_spin uF uS s).winner_flash_remaining = 0 ∧
      (wheel_spin uF uS s).winner_flash_elapsed = 0) := by
  have hrangeS : 10 ≤ unif 10 13 uS ∧ unif 10 13 uS ≤ 13 := by
    unfold unif
    constructor <;> nlinarith
  have hrangeF : (1.8 : ℝ) ≤ unif 1.8 5.6 uF ∧ unif 1.8 5.6 uF ≤ 5.6 := by
    unfold unif
    constructor <;> nlinarith
  have hwheel : ∀ (_ : ¬(s.entries.length < 2 ∨ s.spinning = true))
      (_ : ¬(s.join_open = true)),
      wheel_spin uF uS s =
        {s with spinning := true, winner_index := -1,
                winner_flash_remaining := 0, winner_flash_elapsed := 0,
                spin_friction := unif 1.8 5.6 uF,
                angular_velocity := unif 10 13 uS} := by
    intro h1 h2
    unfold wheel_spin
    rw [if_neg h1, if_neg h2]
  have hhandle : ∀ (_ : winnerShowing s = false)
      (_ : 2 ≤ s.entries.length ∧ s.spinning = false ∧ s.join_open = false),
      handle_spin_or_reset nick uF uS s =
        {s with spinning := true, winner_index := -1,
                winner_flash_remaining := 0, winner_flash_elapsed := 0,
                spin_friction := unif 1.8 5.6 uF,
                angular_velocity := unif 10 13 uS} := by
    intro hw hcond
    unfold handle_spin_or_reset
    rw [if_neg (by rw [hw]; simp), if_pos hcond]
  have hresetspin : winnerShowing s = true →
      (handle_spin_or_reset nick uF uS s).spinning = false := by
    intro hw
    unfold handle_spin_or_reset
    rw [if_pos hw]
    split_ifs <;> rfl
  have hwiff : (wheel_spin uF uS s).spinning = true ↔
      2 ≤ s.entries.length ∧ s.join_open = false := by
    constructor
    · intro h
      by_cases hlen : 2 ≤ s.entries.length
      · by_cases hjo : s.join_open = true
        · exfalso
          have hc1 : ¬(s.entries.length < 2 ∨ s.spinning = true) := by
            rintro (hx | hx)
            · omega
            · rw [hs] at hx; exact Bool.false_ne_true hx
          have hid : wheel_spin uF uS s = s := by
            unfold wheel_spin
            rw [if_neg hc1, if_pos hjo]
          rw [hid, hs] at h
          exact Bool.false_ne_true h
        · exact ⟨hlen, eq_false_of_ne_true hjo⟩
      · exfalso
        have hc1 : s.entries.length < 2 ∨ s.spinning = true := Or.inl (by omega)
        have hid : wheel_spin uF uS s = s := by
          unfold wheel_spin
          rw [if_pos hc1]
        rw [hid, hs] at h
        exact Bool.false_ne_true h
    · rintro ⟨hlen, hjo⟩
      have hc1 : ¬(s.entries.length < 2 ∨ s.spinning = true) := by
        rintro (hx | hx)
        · omega
        · rw [hs] at hx; exact Bool.false_ne_true hx
      have hc2 : ¬(s.join_open = true) := by
        intro hx
        rw [hjo] at hx
        exact Bool.false_ne_true hx
      rw [hwheel hc1 hc2]
  have hiff : (handle_spin_or_reset nick uF uS s).spinning = true ↔
      winnerShowing s = false ∧ 2 ≤ s.entries.length ∧ s.join_open = false := by
    constructor
    · intro h
      by_cases hw : winnerShowing s = true
      · exfalso
        rw [hresetspin hw] at h
        exact Bool.false_ne_true h
      · have hw' := eq_false_of_ne_true hw
        by_cases hcond : 2 ≤ s.entries.length ∧ s.spinning = false ∧ s.join_open = false
        · exact ⟨hw', hcond.1, hcond.2.2⟩
        · exfalso
          have hid : handle_spin_or_reset nick uF uS s = s := by
            unfold handle_spin_or_reset
            rw [if_neg (by rw [hw']; simp), if_neg hcond]
          rw [hid, hs] at h
          exact Bool.false_ne_true h
    · rintro ⟨hw, hlen, hjo⟩
      rw [hhandle hw ⟨hlen, hs, hjo⟩]
  refine ⟨hiff, hwiff, ?_, ?_⟩
  · intro h
    obtain ⟨hw, hlen, hjo⟩ := hiff.mp h
    rw [hhandle hw ⟨hlen, hs, hjo⟩]
    exact ⟨hrangeS.1, hrangeS.2, hrangeF.1, hrangeF.2, rfl, rfl, rfl⟩
  · intro h
    obtain ⟨hlen, hjo⟩ := hwiff.mp h
    have hc1 : ¬(s.entries.length < 2 ∨ s.spinning = true) := by
      rintro (hx | hx)
      · omega
      · rw [hs] at hx; exact Bool.false_ne_true hx
    have hc2 : ¬(s.join_open = true) := by
      intro hx
      rw [hjo] at hx
      exact Bool.false_ne_true hx
    rw [hwheel hc1 hc2]
    exact ⟨hrangeS.1, hrangeS.2, hrangeF.1, hrangeF.2, rfl, rfl, rfl⟩

/-- Witness for C5 (amended): a closed idle state with two participants and
half-way rng samples starts a spin through `wheel_spin`. -/
theorem C5_witness :
    (wheel_spin (1/2) (1/2)
      {baseState with entries := [⟨"alice", 0⟩, ⟨"bob", 1⟩]}).spinning = true :=
  ((C5_amended {baseState with entries := [⟨"alice", 0⟩, ⟨"bob", 1⟩]} "host"
      (1/2) (1/2) rfl (by norm_num) (by norm_num) (by norm_num)
      (by norm_num)).2.1).mpr ⟨by decide, rfl⟩
